import Mathlib

/-!
Verification of the background/subject mask-synthesis routines of the CV
repository.

Two source variants are embedded:

* the heuristic classifier pipeline of `src/app/api/ai/edit-photo/route.ts`
  (`getGrayscale`, the Sobel edge map built inside `createBackgroundMask`,
  `analyzeColorClusters`, `detectBackgroundAreas`, `isBackgroundPixel`,
  the raw mask emission loop, `cleanMaskArtifacts`, `applyEdgeSmoothing`,
  and the degeneracy warnings), and
* the geometric ellipse mask of the earlier route version
  (`src/unnamed/part_001`, its `createBackgroundMask`).

Modelling conventions:

* A raw byte buffer (`Uint8Array`, RGB or RGBA) is a total function
  `Nat → Nat` from byte index to byte value; indices beyond the buffer
  that the JavaScript code never writes are modelled as `0`, matching the
  zero-initialisation of a freshly allocated typed array.
* `Float32Array`/JavaScript `number` arithmetic is modelled exactly over
  `ℚ` where the source computes exactly representable values (grayscale
  weights, neighbour averages) and over `ℝ` where the source takes square
  roots (`Math.sqrt`) or divides by irrational-scale quantities.
* A loop that writes each cell of a fresh output buffer exactly once is
  modelled as the pointwise function giving each cell its written value;
  the smoothing pass reads only the unmodified input buffer and writes a
  separate copy in the source, so this pointwise form is exact.
-/

namespace CVMask

/-- One dominant color entry produced by `analyzeColorClusters`:
a quantized RGB triple with its observed sample frequency. -/
structure ColorCluster where
  rgb : ℕ × ℕ × ℕ
  frequency : ℕ
  deriving Repr, DecidableEq

/-- The color cluster summary returned by `analyzeColorClusters`:
the top dominant colors and the `totalSamples` field. -/
structure ColorClusters where
  dominantColors : List ColorCluster
  totalSamples : ℕ
  deriving Repr, DecidableEq

/-- `getGrayscale` from the source: `Math.round(0.299*r + 0.587*g + 0.114*b)`
on the three RGB bytes of pixel `pixelIndex`.  `Math.round` rounds half
toward positive infinity, i.e. `⌊x + 1/2⌋`. -/
def getGrayscale (imageData : ℕ → ℕ) (pixelIndex : ℕ) : ℤ :=
  let r : ℚ := imageData (pixelIndex * 3)
  let g : ℚ := imageData (pixelIndex * 3 + 1)
  let b : ℚ := imageData (pixelIndex * 3 + 2)
  ⌊0.299 * r + 0.587 * g + 0.114 * b + 1/2⌋

/-- The Sobel edge map built in Step 2 of `createBackgroundMask`
(edit-photo route).  The `Float32Array(width * height)` starts at zero and
the double loop over `y ∈ [1, height-2]`, `x ∈ [1, width-2]` stores
`sqrt(sobelX^2 + sobelY^2)` at `idx = y*width + x`; every other entry keeps
its initial zero. -/
noncomputable def edgeMap (imageData : ℕ → ℕ) (width height : ℕ) : ℕ → ℝ :=
  fun idx =>
    let x := idx % width
    let y := idx / width
    if 1 ≤ x ∧ x + 1 < width ∧ 1 ≤ y ∧ y + 1 < height then
      let tl := getGrayscale imageData ((y-1) * width + (x-1))
      let tm := getGrayscale imageData ((y-1) * width + x)
      let tr := getGrayscale imageData ((y-1) * width + (x+1))
      let ml := getGrayscale imageData (y * width + (x-1))
      let mr := getGrayscale imageData (y * width + (x+1))
      let bl := getGrayscale imageData ((y+1) * width + (x-1))
      let bm := getGrayscale imageData ((y+1) * width + x)
      let br := getGrayscale imageData ((y+1) * width + (x+1))
      let sobelX : ℤ := (tr + 2*mr + br) - (tl + 2*ml + bl)
      let sobelY : ℤ := (bl + 2*bm + br) - (tl + 2*tm + tr)
      Real.sqrt ((sobelX : ℝ)^2 + (sobelY : ℝ)^2)
    else 0

/-- Quantization used by `analyzeColorClusters`:
`Math.floor(v / 32) * 32`. -/
def quantize (v : ℕ) : ℕ := v / 32 * 32

/-- The sampling grid of `analyzeColorClusters`: pixel coordinates
`(x, y)` visited by the double loop `y = 0, 8, 16, ... < height`
(outer) and `x = 0, 8, 16, ... < width` (inner), in visit order. -/
def samplePoints (width height : ℕ) : List (ℕ × ℕ) :=
  (List.range ((height + 7) / 8)).flatMap fun j =>
    (List.range ((width + 7) / 8)).map fun i => (8 * i, 8 * j)

/-- One `colorMap.set(colorKey, (colorMap.get(colorKey) || 0) + 1)` step:
a JavaScript `Map` keeps keys in insertion order, incrementing an existing
key in place and appending a new key at the end. -/
def bumpColor (m : List ((ℕ × ℕ × ℕ) × ℕ)) (k : ℕ × ℕ × ℕ) :
    List ((ℕ × ℕ × ℕ) × ℕ) :=
  match m with
  | [] => [(k, 1)]
  | (k₀, c) :: t => if k₀ = k then (k₀, c + 1) :: t else (k₀, c) :: bumpColor t k

/-- The quantized color tally of `analyzeColorClusters`, in `Map`
insertion order. -/
def colorMapOf (imageData : ℕ → ℕ) (width height : ℕ) :
    List ((ℕ × ℕ × ℕ) × ℕ) :=
  (samplePoints width height).foldl
    (fun m p =>
      let idx := (p.2 * width + p.1) * 3
      bumpColor m
        (quantize (imageData idx), quantize (imageData (idx + 1)),
          quantize (imageData (idx + 2))))
    []

/-- Stable insertion of an entry into a count-descending list: the entry
goes in front of the first element whose count does not exceed its own,
so equal counts keep their original relative order, matching the stable
JavaScript `sort((a, b) => b[1] - a[1])`. -/
def insertDesc (a : (ℕ × ℕ × ℕ) × ℕ) :
    List ((ℕ × ℕ × ℕ) × ℕ) → List ((ℕ × ℕ × ℕ) × ℕ)
  | [] => [a]
  | b :: t => if b.2 ≤ a.2 then a :: b :: t else b :: insertDesc a t

/-- Stable descending-by-count sort (insertion sort). -/
def sortByCountDesc (l : List ((ℕ × ℕ × ℕ) × ℕ)) :
    List ((ℕ × ℕ × ℕ) × ℕ) :=
  l.foldr insertDesc []

/-- `analyzeColorClusters` from the source: sample every 8th pixel in both
axes, quantize each channel to 32-level buckets, tally, sort by frequency
(descending, stable) and keep the top 5; `totalSamples` is
`Math.floor((width * height) / (sampleStep * sampleStep))`, i.e.
`width * height / 64` in integer division. -/
def analyzeColorClusters (imageData : ℕ → ℕ) (width height : ℕ) :
    ColorClusters :=
  let sortedColors := (sortByCountDesc (colorMapOf imageData width height)).take 5
  { dominantColors := sortedColors.map fun kc => { rgb := kc.1, frequency := kc.2 }
    totalSamples := width * height / 64 }

/-- `detectBackgroundAreas` from the source: the `Float32Array` background
map is zero-initialised; for `i < width*height` with `edgeMap[i] < 30` it
receives the sum, over the dominant colors at Euclidean RGB distance
below 60 from the pixel, of `frequency / totalSamples`. -/
noncomputable def detectBackgroundAreas (imageData : ℕ → ℕ)
    (edgeMap : ℕ → ℝ) (width height : ℕ) (colorClusters : ColorClusters) :
    ℕ → ℝ :=
  fun i =>
    if i < width * height ∧ edgeMap i < 30 then
      let r : ℝ := imageData (i * 3)
      let g : ℝ := imageData (i * 3 + 1)
      let b : ℝ := imageData (i * 3 + 2)
      colorClusters.dominantColors.foldl
        (fun backgroundScore dominant =>
          let colorDistance :=
            Real.sqrt ((r - dominant.rgb.1)^2 + (g - dominant.rgb.2.1)^2 +
              (b - dominant.rgb.2.2)^2)
          if colorDistance < 60 then
            backgroundScore + (dominant.frequency : ℝ) / colorClusters.totalSamples
          else backgroundScore)
        0
    else 0

/-- `isBackgroundPixel` from the source.  The unused `imageData` and
`colorClusters` parameters of the JavaScript signature are dropped; the
body reads only `x`, `y`, `idx`, `edgeMap`, `backgroundAreas`, `width`,
`height`. -/
noncomputable def isBackgroundPixel (x y idx : ℕ)
    (edgeMap backgroundAreas : ℕ → ℝ) (width height : ℕ) : Bool :=
  let borderDistance : ℤ :=
    min (min (x : ℤ) (y : ℤ)) (min ((width : ℤ) - x - 1) ((height : ℤ) - y - 1))
  let borderBias : ℝ := if borderDistance < 50 then 0.3 else 0
  let edgeScore : ℝ := if edgeMap idx < 25 then 0.4 else 0
  let colorScore : ℝ := backgroundAreas idx
  let centerX : ℝ := width / 2
  let centerY : ℝ := height / 2
  let centerDistance : ℝ :=
    Real.sqrt (((x : ℝ) - centerX)^2 + ((y : ℝ) - centerY)^2)
  let maxDistance : ℝ := Real.sqrt (centerX^2 + centerY^2)
  let centerBias : ℝ := (centerDistance / maxDistance) * 0.2
  decide (borderBias + edgeScore + colorScore + centerBias > 0.5)

/-- Step 4 of `createBackgroundMask` (edit-photo route): the raw RGBA mask.
Each pixel `idx = y*width + x` receives `(0,0,0,0)` when
`isBackgroundPixel` holds and `(255,255,255,255)` otherwise; all four
channel bytes of a pixel get the same value. -/
noncomputable def rawMaskData (imageData : ℕ → ℕ) (width height : ℕ) :
    ℕ → ℕ :=
  fun j =>
    let idx := j / 4
    if idx < width * height then
      if isBackgroundPixel (idx % width) (idx / width) idx
          (edgeMap imageData width height)
          (detectBackgroundAreas imageData (edgeMap imageData width height)
            width height (analyzeColorClusters imageData width height))
          width height
      then 0 else 255
    else 0

/-- The binary-thresholding loop of `cleanMaskArtifacts`
(`transparencyThreshold = 10`): each pixel of the fresh output buffer
becomes `(0,0,0,0)` when the input alpha is below 10 and
`(255,255,255,255)` otherwise. -/
def binarizeMask (maskData : ℕ → ℕ) (width height : ℕ) : ℕ → ℕ :=
  fun j =>
    let i := j / 4
    if i < width * height then
      if maskData (i * 4 + 3) < 10 then 0 else 255
    else 0

/-- The per-pixel decision of `applyEdgeSmoothing`: `some v` when the pass
overwrites all four channels of pixel `idx` with `v`, `none` when the
pixel keeps its copied input bytes.  Mirrors the source control flow:
interior pixels only, binary-alpha pixels only, only when some 4-connected
neighbour has the opposite binary alpha; the skip condition
`(alpha === 0 && avg < 64) || (alpha === 255 && avg > 191)` leaves the
pixel untouched, otherwise `avg > 127` forces opaque and the final branch
forces transparent.  The average of four byte values is exact in binary
floating point, so `ℚ` models it exactly. -/
def smoothAlpha (maskData : ℕ → ℕ) (width height idx : ℕ) : Option ℕ :=
  let x := idx % width
  let y := idx / width
  if 1 ≤ x ∧ x + 1 < width ∧ 1 ≤ y ∧ y + 1 < height then
    let alpha := maskData (idx * 4 + 3)
    if alpha = 0 ∨ alpha = 255 then
      let top    := maskData (((y-1) * width + x) * 4 + 3)
      let bottom := maskData (((y+1) * width + x) * 4 + 3)
      let left   := maskData ((y * width + (x-1)) * 4 + 3)
      let right  := maskData ((y * width + (x+1)) * 4 + 3)
      let hasOppositeNeighbor :=
        (alpha = 0 ∧ (top = 255 ∨ bottom = 255 ∨ left = 255 ∨ right = 255)) ∨
        (alpha = 255 ∧ (top = 0 ∨ bottom = 0 ∨ left = 0 ∨ right = 0))
      if hasOppositeNeighbor then
        let avgNeighbor : ℚ := ((top + bottom + left + right : ℕ) : ℚ) / 4
        if (alpha = 0 ∧ avgNeighbor < 64) ∨ (alpha = 255 ∧ avgNeighbor > 191) then
          none
        else if avgNeighbor > 127 then some 255
        else some 0
      else none
    else none
  else none

/-- `applyEdgeSmoothing` from the source: start from a copy of the input
and overwrite the pixels selected by `smoothAlpha`.  The source reads only
the unmodified `maskData` and writes only the separate `smoothed` copy,
and each pixel is visited once, so the pass is this pointwise function. -/
def applyEdgeSmoothing (maskData : ℕ → ℕ) (width height : ℕ) : ℕ → ℕ :=
  fun j =>
    match smoothAlpha maskData width height (j / 4) with
    | some v => v
    | none => maskData j

/-- `cleanMaskArtifacts` from the source: binary thresholding followed by
one application of `applyEdgeSmoothing`. -/
def cleanMaskArtifacts (rawMaskData : ℕ → ℕ) (width height : ℕ) : ℕ → ℕ :=
  applyEdgeSmoothing (binarizeMask rawMaskData width height) width height

/-- The full mask-synthesis pipeline of `createBackgroundMask`
(edit-photo route), from decoded RGB raster to cleaned RGBA mask. -/
noncomputable def createBackgroundMaskCore (imageData : ℕ → ℕ)
    (width height : ℕ) : ℕ → ℕ :=
  cleanMaskArtifacts (rawMaskData imageData width height) width height

/-- `editablePixels` counted during the raw-mask emission loop: the number
of pixels classified background.  `backgroundDetected` is incremented in
the same branch and always equals this count. -/
noncomputable def editablePixels (imageData : ℕ → ℕ) (width height : ℕ) : ℕ :=
  (List.range (width * height)).countP fun idx =>
    isBackgroundPixel (idx % width) (idx / width) idx
      (edgeMap imageData width height)
      (detectBackgroundAreas imageData (edgeMap imageData width height)
        width height (analyzeColorClusters imageData width height))
      width height

/-- `protectedPixels` counted during the raw-mask emission loop: the number
of pixels classified subject. -/
noncomputable def protectedPixels (imageData : ℕ → ℕ) (width height : ℕ) : ℕ :=
  (List.range (width * height)).countP fun idx =>
    ! isBackgroundPixel (idx % width) (idx / width) idx
      (edgeMap imageData width height)
      (detectBackgroundAreas imageData (edgeMap imageData width height)
        width height (analyzeColorClusters imageData width height))
      width height

/-- The degeneracy diagnostics of `createBackgroundMask` (lines 139-148):
`console.warn` messages emitted when the mask is degenerate.  They are
advisory only; the source computes them and returns the cleaned mask
regardless. -/
noncomputable def maskWarnings (imageData : ℕ → ℕ) (width height : ℕ) :
    List String :=
  (if editablePixels imageData width height = 0 then
    ["WARNING: No background areas detected"] else []) ++
  (if protectedPixels imageData width height = 0 then
    ["WARNING: No subject detected"] else []) ++
  (if ((editablePixels imageData width height : ℝ) < width * height * 0.1) then
    ["WARNING: Very small background area detected"] else [])

/-- The mask-synthesis pipeline together with its diagnostics: the source
returns the cleaned mask unconditionally and the warnings never modify
it. -/
noncomputable def createBackgroundMaskChecked (imageData : ℕ → ℕ)
    (width height : ℕ) : (ℕ → ℕ) × List String :=
  (createBackgroundMaskCore imageData width height,
    maskWarnings imageData width height)

/-- The per-pixel alpha of the geometric ellipse mask
(`createBackgroundMask` in `src/unnamed/part_001`) as a function of the
normalized elliptical distance: `255` inside the ellipse, the floored
linear falloff `Math.floor(255 * Math.max(0, (1.3 - d) / 0.3))` in the
transition band, `0` outside. -/
noncomputable def ellipseAlpha (distance : ℝ) : ℕ :=
  if distance ≤ 1.0 then 255
  else if distance ≤ 1.3 then
    (⌊(255 : ℝ) * max 0 ((1.3 - distance) / 0.3)⌋).toNat
  else 0

/-- The normalized elliptical distance of pixel `(x, y)` in the geometric
ellipse mask, with the radii used by the source:
`protectedRadiusX = width * 0.25`, `protectedRadiusY = height * 0.3`,
center `(width/2, height/2)`. -/
noncomputable def ellipseDistance (width height x y : ℕ) : ℝ :=
  let centerX : ℝ := width / 2
  let centerY : ℝ := height / 2
  let protectedRadiusX : ℝ := width * 0.25
  let protectedRadiusY : ℝ := height * 0.3
  let normalizedX : ℝ := ((x : ℝ) - centerX) / protectedRadiusX
  let normalizedY : ℝ := ((y : ℝ) - centerY) / protectedRadiusY
  Real.sqrt (normalizedX * normalizedX + normalizedY * normalizedY)

/-- The RGBA buffer written by the geometric ellipse mask: each pixel gets
`(alpha, alpha, alpha, 255)` where `alpha = ellipseAlpha` of its
normalized distance. -/
noncomputable def ellipseMaskData (width height : ℕ) : ℕ → ℕ :=
  fun j =>
    let idx := j / 4
    if idx < width * height then
      if j % 4 = 3 then 255
      else ellipseAlpha (ellipseDistance width height (idx % width) (idx / width))
    else 0

/-- Modelled from the spec: the Background Score Map exactly as claim C3
words it, with `totalSamples` taken to be "the total number of samples
taken by the stride-8 sampling of the image", i.e. the length of the
sample grid, rather than the `totalSamples` field the code computes.
Used only to compare the claim against `detectBackgroundAreas`. -/
noncomputable def claimBackgroundScoreMap (imageData : ℕ → ℕ)
    (width height : ℕ) : ℕ → ℝ :=
  fun i =>
    if edgeMap imageData width height i < 30 then
      (((analyzeColorClusters imageData width height).dominantColors).map
        fun dominant =>
          if Real.sqrt (((imageData (i * 3) : ℝ) - dominant.rgb.1)^2 +
              ((imageData (i * 3 + 1) : ℝ) - dominant.rgb.2.1)^2 +
              ((imageData (i * 3 + 2) : ℝ) - dominant.rgb.2.2)^2) < 60 then
            (dominant.frequency : ℝ) / (samplePoints width height).length
          else 0).sum
    else 0

/-- A pixel of an RGBA buffer is binary-and-mirrored: all four channel
bytes are 0, or all four are 255. -/
def mirrorBinaryAt (m : ℕ → ℕ) (p : ℕ) : Prop :=
  (∀ c < 4, m (p * 4 + c) = 0) ∨ (∀ c < 4, m (p * 4 + c) = 255)

/-- A concrete binary mask used by witnesses: pixels 0 and 1 fully opaque,
all other pixels fully transparent. -/
def testMaskTwoOpaque : ℕ → ℕ := fun j => if j < 8 then 255 else 0

/-- The byte indices `applyEdgeSmoothing` can read when producing the
bytes of pixel `p`: the four bytes of `p` itself and the alpha bytes of
its four 4-connected neighbours (with the same index arithmetic the
source uses). -/
def smoothReads (width p : ℕ) : List ℕ :=
  let x := p % width
  let y := p / width
  [p * 4, p * 4 + 1, p * 4 + 2, p * 4 + 3,
    ((y-1) * width + x) * 4 + 3, ((y+1) * width + x) * 4 + 3,
    (y * width + (x-1)) * 4 + 3, (y * width + (x+1)) * 4 + 3]

/-- The source's `hasOppositeNeighbor` test at pixel `(x, y)` (center
index `y*w + x`): the pixel's binary alpha state is opposed by at least
one of its 4-connected neighbours, with the same index arithmetic as the
source. -/
def hasOppositeNeighborProp (m : ℕ → ℕ) (w x y : ℕ) : Prop :=
  (m ((y*w + x) * 4 + 3) = 0 ∧
    (m (((y-1)*w + x) * 4 + 3) = 255 ∨ m (((y+1)*w + x) * 4 + 3) = 255 ∨
     m ((y*w + (x-1)) * 4 + 3) = 255 ∨ m ((y*w + (x+1)) * 4 + 3) = 255)) ∨
  (m ((y*w + x) * 4 + 3) = 255 ∧
    (m (((y-1)*w + x) * 4 + 3) = 0 ∨ m (((y+1)*w + x) * 4 + 3) = 0 ∨
     m ((y*w + (x-1)) * 4 + 3) = 0 ∨ m ((y*w + (x+1)) * 4 + 3) = 0))

/-- The sum of the four 4-connected neighbour alphas of pixel `(x, y)`,
in the source's order top, bottom, left, right. -/
def neighborAlphaSum (m : ℕ → ℕ) (w x y : ℕ) : ℕ :=
  m (((y-1)*w + x) * 4 + 3) + m (((y+1)*w + x) * 4 + 3) +
  m ((y*w + (x-1)) * 4 + 3) + m ((y*w + (x+1)) * 4 + 3)

/-! ### Index arithmetic helpers -/

theorem pixel_mod (w x y : ℕ) (hx : x < w) : (y * w + x) % w = x := by
  rw [Nat.mul_comm y w, Nat.mul_add_mod, Nat.mod_eq_of_lt hx]

theorem pixel_div (w x y : ℕ) (hx : x < w) : (y * w + x) / w = y := by
  have hw : 0 < w := lt_of_le_of_lt (Nat.zero_le x) hx
  rw [Nat.mul_comm y w, Nat.mul_add_div hw, Nat.div_eq_of_lt hx, Nat.add_zero]

theorem quad_div (p c : ℕ) (hc : c < 4) : (p * 4 + c) / 4 = p := by omega

/-! ### Binary cleanup: pointwise shape -/

theorem binarize_mirror (m : ℕ → ℕ) (w h p : ℕ) :
    mirrorBinaryAt (binarizeMask m w h) p := by
  unfold mirrorBinaryAt binarizeMask
  by_cases hp : p < w * h
  · by_cases hm : m (p * 4 + 3) < 10
    · left
      intro c hc
      simp only [quad_div p c hc, hp, if_true, hm]
    · right
      intro c hc
      simp only [quad_div p c hc, hp, if_true, hm, if_false]
  · left
    intro c hc
    simp only [quad_div p c hc, hp, if_false]

/-! ### Edge smoothing: pointwise shape -/

theorem smoothAlpha_some_binary (m : ℕ → ℕ) (w h p v : ℕ)
    (hv : smoothAlpha m w h p = some v) : v = 255 ∨ v = 0 := by
  unfold smoothAlpha at hv
  dsimp only at hv
  split at hv
  · split at hv
    · split at hv
      · split at hv
        · simp at hv
        · split at hv
          · simp at hv
            omega
          · simp at hv
            omega
      · simp at hv
    · simp at hv
  · simp at hv

theorem smooth_mirror (m : ℕ → ℕ) (w h p : ℕ) (hm : mirrorBinaryAt m p) :
    mirrorBinaryAt (applyEdgeSmoothing m w h) p := by
  unfold applyEdgeSmoothing
  cases heq : smoothAlpha m w h p with
  | none =>
    rcases hm with h0 | h255
    · left
      intro c hc
      simp only [quad_div p c hc, heq]
      exact h0 c hc
    · right
      intro c hc
      simp only [quad_div p c hc, heq]
      exact h255 c hc
  | some v =>
    rcases smoothAlpha_some_binary m w h p v heq with h255 | h0
    · right
      intro c hc
      simp only [quad_div p c hc, heq, h255]
    · left
      intro c hc
      simp only [quad_div p c hc, heq, h0]

/-! ### Claim C1 -/

/-- C1: for every well-formed RGB input raster, the mask produced by the
heuristic classifier after binary cleanup has every pixel's alpha exactly
0 or 255 with the RGB channels mirroring alpha, and this binary-mirrored
invariant still holds after the edge-smoothing pass (i.e. for the final
`createBackgroundMaskCore` output). -/
theorem mask_binary_invariant (imageData : ℕ → ℕ) (w h p : ℕ)
    (hp : p < w * h) :
    mirrorBinaryAt (binarizeMask (rawMaskData imageData w h) w h) p ∧
    mirrorBinaryAt (createBackgroundMaskCore imageData w h) p := by
  refine ⟨binarize_mirror _ w h p, ?_⟩
  unfold createBackgroundMaskCore cleanMaskArtifacts
  exact smooth_mirror _ w h p (binarize_mirror _ w h p)

theorem mask_binary_invariant_witness :
    mirrorBinaryAt (binarizeMask (rawMaskData (fun _ => 0) 2 2) 2 2) 0 ∧
    mirrorBinaryAt (createBackgroundMaskCore (fun _ => 0) 2 2) 0 :=
  mask_binary_invariant (fun _ => 0) 2 2 0 (by decide)

/-! ### Claim C6 -/

/-- C6: applying the binary-cleanup step (alpha below threshold 10 forced
to `(0,0,0,0)`, alpha at or above 10 forced to `(255,255,255,255)`) twice
to an already-binary mask yields the identical mask as applying it once:
no byte changes on the second application. -/
theorem binary_cleanup_idempotent (m : ℕ → ℕ) (w h : ℕ)
    (hbin : ∀ p, m (p * 4 + 3) = 0 ∨ m (p * 4 + 3) = 255) :
    ∀ j, binarizeMask (binarizeMask m w h) w h j = binarizeMask m w h j := by
  intro j
  by_cases hj : j / 4 < w * h
  · have h43 : (j / 4 * 4 + 3) / 4 = j / 4 := by omega
    rcases hbin (j / 4) with h0 | h255
    · have hm : m (j / 4 * 4 + 3) < 10 := by omega
      simp [binarizeMask, hj, hm, h43]
    · have hm : ¬ m (j / 4 * 4 + 3) < 10 := by omega
      simp [binarizeMask, hj, hm, h43]
  · simp [binarizeMask, hj]

theorem binary_cleanup_idempotent_witness :
    binarizeMask (binarizeMask (fun _ => 0) 1 1) 1 1 0 =
      binarizeMask (fun _ => 0) 1 1 0 :=
  binary_cleanup_idempotent (fun _ => 0) 1 1 (fun _ => Or.inl rfl) 0

/-! ### Claim C7 -/

/-- C7: for any input raster, every pixel in the outermost 1-pixel ring of
the Sobel edge map has edge value exactly 0: the gradient is never
computed there and the entries keep their zero initial value. -/
theorem border_edge_zero (imageData : ℕ → ℕ) (w h x y : ℕ)
    (hx : x < w) (hy : y < h)
    (hb : x = 0 ∨ y = 0 ∨ x + 1 = w ∨ y + 1 = h) :
    edgeMap imageData w h (y * w + x) = 0 := by
  unfold edgeMap
  simp only [pixel_mod w x y hx, pixel_div w x y hx]
  rw [if_neg]
  omega

theorem border_edge_zero_witness :
    edgeMap (fun _ => 0) 3 3 (0 * 3 + 0) = 0 :=
  border_edge_zero (fun _ => 0) 3 3 0 0 (by decide) (by decide) (Or.inl rfl)

/-! ### Mirrored-binary pixel helpers -/

theorem mirror_alpha (m : ℕ → ℕ) (p : ℕ) (hm : mirrorBinaryAt m p) :
    m (p * 4 + 3) = 0 ∨ m (p * 4 + 3) = 255 := by
  rcases hm with h0 | h255
  · exact Or.inl (h0 3 (by omega))
  · exact Or.inr (h255 3 (by omega))

theorem mirror_all_zero (m : ℕ → ℕ) (p : ℕ) (hm : mirrorBinaryAt m p)
    (ha : m (p * 4 + 3) = 0) : ∀ c < 4, m (p * 4 + c) = 0 := by
  rcases hm with h0 | h255
  · exact h0
  · have := h255 3 (by omega)
    omega

theorem mirror_all_255 (m : ℕ → ℕ) (p : ℕ) (hm : mirrorBinaryAt m p)
    (ha : m (p * 4 + 3) = 255) : ∀ c < 4, m (p * 4 + c) = 255 := by
  rcases hm with h0 | h255
  · have := h0 3 (by omega)
    omega
  · exact h255

/-- Shape of `smoothAlpha` at an interior pixel with binary alpha and an
opposite 4-connected neighbour: the skip condition keeps the pixel, a
majority-opaque average writes 255, the remaining case writes 0. -/
theorem smoothAlpha_interior (m : ℕ → ℕ) (w h x y : ℕ)
    (hx1 : 1 ≤ x) (hx2 : x + 1 < w) (hy1 : 1 ≤ y) (hy2 : y + 1 < h)
    (ha : m ((y*w + x) * 4 + 3) = 0 ∨ m ((y*w + x) * 4 + 3) = 255)
    (hopp : hasOppositeNeighborProp m w x y) :
    smoothAlpha m w h (y*w + x) =
      if (m ((y*w + x) * 4 + 3) = 0 ∧ (neighborAlphaSum m w x y : ℚ) / 4 < 64) ∨
          (m ((y*w + x) * 4 + 3) = 255 ∧ (neighborAlphaSum m w x y : ℚ) / 4 > 191)
      then none
      else if (neighborAlphaSum m w x y : ℚ) / 4 > 127 then some 255
      else some 0 := by
  have hx : x < w := by omega
  unfold hasOppositeNeighborProp at hopp
  unfold smoothAlpha
  dsimp only
  rw [pixel_mod w x y hx, pixel_div w x y hx]
  rw [if_pos ⟨hx1, hx2, hy1, hy2⟩, if_pos ha, if_pos hopp]
  rfl

/-! ### Claim C5 -/

/-- C5: in the single smoothing pass, every interior pixel of a
binary-and-mirrored mask that has at least one 4-connected neighbour in
the opposite binary alpha state is recomputed from the average of its 4
neighbours' alpha: average greater than 127 forces the pixel fully opaque
`(255,255,255,255)`; average at most 127 with a currently transparent
pixel forces it fully transparent `(0,0,0,0)`; when at least three of the
four neighbours agree with the pixel's current state the pixel is left
untouched; and the pipeline applies the pass exactly once after the
binary cleanup. -/
theorem edge_smoothing_rule (m : ℕ → ℕ) (w h x y : ℕ)
    (hmask : ∀ q, mirrorBinaryAt m q)
    (hx1 : 1 ≤ x) (hx2 : x + 1 < w) (hy1 : 1 ≤ y) (hy2 : y + 1 < h)
    (hopp : hasOppositeNeighborProp m w x y) :
    ((neighborAlphaSum m w x y : ℚ) / 4 > 127 →
      ∀ c < 4, applyEdgeSmoothing m w h ((y*w + x) * 4 + c) = 255) ∧
    ((neighborAlphaSum m w x y : ℚ) / 4 ≤ 127 → m ((y*w + x) * 4 + 3) = 0 →
      ∀ c < 4, applyEdgeSmoothing m w h ((y*w + x) * 4 + c) = 0) ∧
    (3 ≤ (if m (((y-1)*w + x) * 4 + 3) = m ((y*w + x) * 4 + 3) then 1 else 0) +
         (if m (((y+1)*w + x) * 4 + 3) = m ((y*w + x) * 4 + 3) then 1 else 0) +
         (if m ((y*w + (x-1)) * 4 + 3) = m ((y*w + x) * 4 + 3) then 1 else 0) +
         (if m ((y*w + (x+1)) * 4 + 3) = m ((y*w + x) * 4 + 3) then 1 else 0) →
      ∀ c < 4, applyEdgeSmoothing m w h ((y*w + x) * 4 + c) =
        m ((y*w + x) * 4 + c)) ∧
    (∀ m₀ : ℕ → ℕ, cleanMaskArtifacts m₀ w h =
      applyEdgeSmoothing (binarizeMask m₀ w h) w h) := by
  have ha := mirror_alpha m (y*w + x) (hmask (y*w + x))
  have hsa := smoothAlpha_interior m w h x y hx1 hx2 hy1 hy2 ha hopp
  have hT := mirror_alpha m ((y-1)*w + x) (hmask ((y-1)*w + x))
  have hB := mirror_alpha m ((y+1)*w + x) (hmask ((y+1)*w + x))
  have hL := mirror_alpha m (y*w + (x-1)) (hmask (y*w + (x-1)))
  have hR := mirror_alpha m (y*w + (x+1)) (hmask (y*w + (x+1)))
  refine ⟨?_, ?_, ?_, fun m₀ => rfl⟩
  · intro havg c hc
    unfold applyEdgeSmoothing
    rw [quad_div _ c hc, hsa]
    by_cases hskip :
        (m ((y*w + x) * 4 + 3) = 0 ∧ (neighborAlphaSum m w x y : ℚ) / 4 < 64) ∨
        (m ((y*w + x) * 4 + 3) = 255 ∧ (neighborAlphaSum m w x y : ℚ) / 4 > 191)
    · rcases hskip with ⟨ha0, hlt⟩ | ⟨ha255, hgt⟩
      · exact absurd havg (by linarith)
      · rw [if_pos (Or.inr ⟨ha255, hgt⟩)]
        exact mirror_all_255 m (y*w + x) (hmask (y*w + x)) ha255 c hc
    · rw [if_neg hskip, if_pos havg]
  · intro havg ha0 c hc
    unfold applyEdgeSmoothing
    rw [quad_div _ c hc, hsa]
    by_cases hlt : (neighborAlphaSum m w x y : ℚ) / 4 < 64
    · rw [if_pos (Or.inl ⟨ha0, hlt⟩)]
      exact mirror_all_zero m (y*w + x) (hmask (y*w + x)) ha0 c hc
    · have hskip :
          ¬ ((m ((y*w + x) * 4 + 3) = 0 ∧ (neighborAlphaSum m w x y : ℚ) / 4 < 64) ∨
            (m ((y*w + x) * 4 + 3) = 255 ∧ (neighborAlphaSum m w x y : ℚ) / 4 > 191)) := by
        rintro (⟨_, hlt2⟩ | ⟨ha255, _⟩)
        · exact hlt hlt2
        · omega
      rw [if_neg hskip, if_neg (not_lt.2 havg)]
  · intro hmaj c hc
    unfold applyEdgeSmoothing
    rw [quad_div _ c hc, hsa]
    rcases ha with ha0 | ha255
    · have hsum : neighborAlphaSum m w x y ≤ 255 := by
        unfold neighborAlphaSum
        rcases hT with hT | hT <;> rcases hB with hB | hB <;>
          rcases hL with hL | hL <;> rcases hR with hR | hR <;>
          simp [hT, hB, hL, hR, ha0] at hmaj ⊢
      have havg : (neighborAlphaSum m w x y : ℚ) / 4 < 64 := by
        have : (neighborAlphaSum m w x y : ℚ) ≤ 255 := by exact_mod_cast hsum
        linarith
      rw [if_pos (Or.inl ⟨ha0, havg⟩)]
    · have hsum : 765 ≤ neighborAlphaSum m w x y := by
        unfold neighborAlphaSum
        rcases hT with hT | hT <;> rcases hB with hB | hB <;>
          rcases hL with hL | hL <;> rcases hR with hR | hR <;>
          simp [hT, hB, hL, hR, ha255] at hmaj ⊢
      have havg : (neighborAlphaSum m w x y : ℚ) / 4 > 191 := by
        have : (765 : ℚ) ≤ (neighborAlphaSum m w x y : ℚ) := by exact_mod_cast hsum
        linarith
      rw [if_pos (Or.inr ⟨ha255, havg⟩)]

theorem edge_smoothing_rule_witness :
    ((neighborAlphaSum testMaskTwoOpaque 3 1 1 : ℚ) / 4 > 127 →
      ∀ c < 4, applyEdgeSmoothing testMaskTwoOpaque 3 3 ((1*3 + 1) * 4 + c) = 255) ∧
    ((neighborAlphaSum testMaskTwoOpaque 3 1 1 : ℚ) / 4 ≤ 127 →
      testMaskTwoOpaque ((1*3 + 1) * 4 + 3) = 0 →
      ∀ c < 4, applyEdgeSmoothing testMaskTwoOpaque 3 3 ((1*3 + 1) * 4 + c) = 0) ∧
    (3 ≤ (if testMaskTwoOpaque (((1-1)*3 + 1) * 4 + 3) = testMaskTwoOpaque ((1*3 + 1) * 4 + 3) then 1 else 0) +
         (if testMaskTwoOpaque (((1+1)*3 + 1) * 4 + 3) = testMaskTwoOpaque ((1*3 + 1) * 4 + 3) then 1 else 0) +
         (if testMaskTwoOpaque ((1*3 + (1-1)) * 4 + 3) = testMaskTwoOpaque ((1*3 + 1) * 4 + 3) then 1 else 0) +
         (if testMaskTwoOpaque ((1*3 + (1+1)) * 4 + 3) = testMaskTwoOpaque ((1*3 + 1) * 4 + 3) then 1 else 0) →
      ∀ c < 4, applyEdgeSmoothing testMaskTwoOpaque 3 3 ((1*3 + 1) * 4 + c) =
        testMaskTwoOpaque ((1*3 + 1) * 4 + c)) ∧
    (∀ m₀ : ℕ → ℕ, cleanMaskArtifacts m₀ 3 3 =
      applyEdgeSmoothing (binarizeMask m₀ 3 3) 3 3) :=
  edge_smoothing_rule testMaskTwoOpaque 3 3 1 1
    (fun q => by
      by_cases hq : q < 2
      · right
        intro c hc
        simp [testMaskTwoOpaque, show q * 4 + c < 8 by omega]
      · left
        intro c hc
        simp [testMaskTwoOpaque, show ¬ (q * 4 + c < 8) by omega])
    (by decide) (by decide) (by decide) (by decide)
    (Or.inl ⟨rfl, Or.inl rfl⟩)

/-! ### Claim C10 -/

/-- C10: the smoothing pass leaves bit-for-bit unchanged every pixel in
the outermost 1-pixel ring, and every pixel none of whose 4-connected
neighbours has the opposite binary alpha state; and each output pixel is
a function of the pre-pass input only: it depends on nothing but the
bytes of that pixel and the alpha bytes of its four neighbours in the
unmodified input buffer, so the result is independent of the traversal
order within the pass. -/
theorem edge_smoothing_frame (m : ℕ → ℕ) (w h : ℕ) :
    (∀ x y c, x < w → y < h → c < 4 →
      (x = 0 ∨ y = 0 ∨ x + 1 = w ∨ y + 1 = h) →
      applyEdgeSmoothing m w h ((y*w + x) * 4 + c) = m ((y*w + x) * 4 + c)) ∧
    (∀ p c, c < 4 → ¬ hasOppositeNeighborProp m w (p % w) (p / w) →
      applyEdgeSmoothing m w h (p * 4 + c) = m (p * 4 + c)) ∧
    (∀ m₂ p c, c < 4 → (∀ i ∈ smoothReads w p, m i = m₂ i) →
      applyEdgeSmoothing m w h (p * 4 + c) = applyEdgeSmoothing m₂ w h (p * 4 + c)) := by
  refine ⟨?_, ?_, ?_⟩
  · intro x y c hx hy hc hb
    unfold applyEdgeSmoothing
    rw [quad_div _ c hc]
    unfold smoothAlpha
    dsimp only
    rw [pixel_mod w x y hx, pixel_div w x y hx]
    rw [if_neg (by omega)]
  · intro p c hc hopp
    have hp : p / w * w + p % w = p := by
      have h0 := Nat.div_add_mod p w
      rw [Nat.mul_comm w (p / w)] at h0
      exact h0
    unfold hasOppositeNeighborProp at hopp
    rw [hp] at hopp
    unfold applyEdgeSmoothing
    rw [quad_div _ c hc]
    unfold smoothAlpha
    dsimp only
    by_cases hint : 1 ≤ p % w ∧ p % w + 1 < w ∧ 1 ≤ p / w ∧ p / w + 1 < h
    · rw [if_pos hint]
      by_cases hbin : m (p * 4 + 3) = 0 ∨ m (p * 4 + 3) = 255
      · rw [if_pos hbin, if_neg hopp]
      · rw [if_neg hbin]
    · rw [if_neg hint]
  · intro m₂ p c hc hag
    have e3 : m (p * 4 + 3) = m₂ (p * 4 + 3) := hag _ (by simp [smoothReads])
    have eT : m (((p / w - 1) * w + p % w) * 4 + 3) =
        m₂ (((p / w - 1) * w + p % w) * 4 + 3) := hag _ (by simp [smoothReads])
    have eB : m (((p / w + 1) * w + p % w) * 4 + 3) =
        m₂ (((p / w + 1) * w + p % w) * 4 + 3) := hag _ (by simp [smoothReads])
    have eL : m ((p / w * w + (p % w - 1)) * 4 + 3) =
        m₂ ((p / w * w + (p % w - 1)) * 4 + 3) := hag _ (by simp [smoothReads])
    have eR : m ((p / w * w + (p % w + 1)) * 4 + 3) =
        m₂ ((p / w * w + (p % w + 1)) * 4 + 3) := hag _ (by simp [smoothReads])
    have eself : m (p * 4 + c) = m₂ (p * 4 + c) := by
      refine hag _ ?_
      interval_cases c <;> simp [smoothReads]
    have hs : smoothAlpha m w h p = smoothAlpha m₂ w h p := by
      unfold smoothAlpha
      dsimp only
      rw [e3, eT, eB, eL, eR]
    unfold applyEdgeSmoothing
    rw [quad_div _ c hc, hs]
    cases h2 : smoothAlpha m₂ w h p with
    | none => exact eself
    | some v => rfl

theorem edge_smoothing_frame_witness :
    applyEdgeSmoothing testMaskTwoOpaque 3 3 ((0*3 + 0) * 4 + 0) =
      testMaskTwoOpaque ((0*3 + 0) * 4 + 0) ∧
    applyEdgeSmoothing testMaskTwoOpaque 3 3 (8 * 4 + 0) =
      testMaskTwoOpaque (8 * 4 + 0) ∧
    applyEdgeSmoothing testMaskTwoOpaque 3 3 (4 * 4 + 0) =
      applyEdgeSmoothing testMaskTwoOpaque 3 3 (4 * 4 + 0) :=
  ⟨(edge_smoothing_frame testMaskTwoOpaque 3 3).1 0 0 0 (by decide) (by decide)
      (by decide) (Or.inl rfl),
   (edge_smoothing_frame testMaskTwoOpaque 3 3).2.1 8 0 (by decide)
      (by simp [hasOppositeNeighborProp, testMaskTwoOpaque]),
   (edge_smoothing_frame testMaskTwoOpaque 3 3).2.2 testMaskTwoOpaque 4 0
      (by decide) (fun i _ => rfl)⟩

/-! ### Ellipse mask helpers -/

theorem pixel_lt (w h x y : ℕ) (hx : x < w) (hy : y < h) : y * w + x < w * h := by
  calc y * w + x < y * w + w := by omega
    _ = (y + 1) * w := by ring
    _ ≤ h * w := Nat.mul_le_mul_right w (by omega)
    _ = w * h := Nat.mul_comm h w

/-- Each RGB channel byte of the ellipse mask is the `ellipseAlpha` of the
pixel's normalized elliptical distance. -/
theorem ellipseMaskData_rgb (w h x y c : ℕ) (hx : x < w) (hy : y < h)
    (hc : c < 3) :
    ellipseMaskData w h ((y * w + x) * 4 + c) =
      ellipseAlpha (ellipseDistance w h x y) := by
  unfold ellipseMaskData
  dsimp only
  rw [quad_div _ c (by omega), pixel_mod w x y hx, pixel_div w x y hx]
  rw [if_pos (pixel_lt w h x y hx hy)]
  rw [show ((y * w + x) * 4 + c) % 4 = c by omega]
  rw [if_neg (by omega)]

/-! ### Claim C8 -/

/-- C8: the alpha assigned by the geometric ellipse mask is a
monotonically non-increasing function of the normalized elliptical
distance `d`: each RGB byte is `ellipseAlpha` of the pixel's distance,
alpha is 255 for every `d ≤ 1.0`, zero for every `d > 1.3`, and
non-increasing as `d` increases. -/
theorem ellipse_alpha_monotone :
    (∀ w h x y c, x < w → y < h → c < 3 →
      ellipseMaskData w h ((y * w + x) * 4 + c) =
        ellipseAlpha (ellipseDistance w h x y)) ∧
    (∀ d : ℝ, d ≤ 1.0 → ellipseAlpha d = 255) ∧
    (∀ d : ℝ, 1.3 < d → ellipseAlpha d = 0) ∧
    (∀ d₁ d₂ : ℝ, d₁ ≤ d₂ → ellipseAlpha d₂ ≤ ellipseAlpha d₁) := by
  refine ⟨fun w h x y c hx hy hc => ellipseMaskData_rgb w h x y c hx hy hc,
    ?_, ?_, ?_⟩
  · intro d hd
    unfold ellipseAlpha
    rw [if_pos hd]
  · intro d hd
    unfold ellipseAlpha
    rw [if_neg (by linarith), if_neg (by linarith)]
  · intro d₁ d₂ hle
    unfold ellipseAlpha
    by_cases h1 : d₂ ≤ 1.0
    · rw [if_pos h1, if_pos (le_trans hle h1)]
    · rw [if_neg h1]
      by_cases h2 : d₂ ≤ 1.3
      · rw [if_pos h2]
        have hcap : ∀ d : ℝ, ¬ d ≤ 1.0 →
            (⌊(255 : ℝ) * max 0 ((1.3 - d) / 0.3)⌋).toNat ≤ 255 := by
          intro d hd
          have hf : (1.3 - d) / 0.3 ≤ 1 := by
            rw [div_le_one (by norm_num)]
            linarith [not_le.1 hd]
          have hm : max 0 ((1.3 - d) / 0.3) ≤ 1 := max_le (by norm_num) hf
          have hmul : (255 : ℝ) * max 0 ((1.3 - d) / 0.3) ≤ 255 :=
            mul_le_of_le_one_right (by norm_num) hm
          have hfl : ⌊(255 : ℝ) * max 0 ((1.3 - d) / 0.3)⌋ ≤ 255 := by
            have := Int.floor_le_floor hmul
            simpa using this
          omega
        by_cases h3 : d₁ ≤ 1.0
        · rw [if_pos h3]
          exact hcap d₂ h1
        · rw [if_neg h3, if_pos (le_trans hle h2)]
          have hdd : (1.3 - d₂) / 0.3 ≤ (1.3 - d₁) / 0.3 := by
            gcongr
          have hmm : max 0 ((1.3 - d₂) / 0.3) ≤ max 0 ((1.3 - d₁) / 0.3) :=
            max_le_max le_rfl hdd
          have hmul : (255 : ℝ) * max 0 ((1.3 - d₂) / 0.3) ≤
              (255 : ℝ) * max 0 ((1.3 - d₁) / 0.3) :=
            mul_le_mul_of_nonneg_left hmm (by norm_num)
          have hfl := Int.floor_le_floor hmul
          omega
      · rw [if_neg h2]
        exact Nat.zero_le _

theorem ellipse_alpha_monotone_witness :
    ellipseMaskData 2 2 ((1 * 2 + 1) * 4 + 0) =
      ellipseAlpha (ellipseDistance 2 2 1 1) ∧
    ellipseAlpha (1/2 : ℝ) = 255 ∧
    ellipseAlpha (2 : ℝ) = 0 ∧
    ellipseAlpha (2 : ℝ) ≤ ellipseAlpha (0 : ℝ) :=
  ⟨ellipse_alpha_monotone.1 2 2 1 1 0 (by decide) (by decide) (by decide),
   ellipse_alpha_monotone.2.1 (1/2) (by norm_num),
   ellipse_alpha_monotone.2.2.1 2 (by norm_num),
   ellipse_alpha_monotone.2.2.2 0 2 (by norm_num)⟩

/-! ### Claim C4 -/

/-- C4 (amended): for every pixel of the geometric ellipse mask, a
normalized elliptical distance `d ≤ 1.0` gives alpha 255; a distance in
the band `1.0 < d ≤ 1.3` gives the floored linear falloff
`⌊255 * max 0 ((1.3 - d) / 0.3)⌋`; a distance `d > 1.3` gives alpha 0;
and the three RGB channels are all equal. -/
theorem ellipse_band_alpha (w h x y c : ℕ) (hx : x < w) (hy : y < h)
    (hc : c < 3) :
    (ellipseDistance w h x y ≤ 1.0 →
      ellipseMaskData w h ((y * w + x) * 4 + c) = 255) ∧
    (1.0 < ellipseDistance w h x y → ellipseDistance w h x y ≤ 1.3 →
      ellipseMaskData w h ((y * w + x) * 4 + c) =
        (⌊(255 : ℝ) * max 0 ((1.3 - ellipseDistance w h x y) / 0.3)⌋).toNat) ∧
    (1.3 < ellipseDistance w h x y →
      ellipseMaskData w h ((y * w + x) * 4 + c) = 0) ∧
    ellipseMaskData w h ((y * w + x) * 4 + c) =
      ellipseMaskData w h ((y * w + x) * 4 + 0) := by
  rw [ellipseMaskData_rgb w h x y c hx hy hc,
    ellipseMaskData_rgb w h x y 0 hx hy (by omega)]
  refine ⟨?_, ?_, ?_, rfl⟩
  · intro hd
    unfold ellipseAlpha
    rw [if_pos hd]
  · intro hd1 hd2
    unfold ellipseAlpha
    rw [if_neg (by linarith), if_pos hd2]
  · intro hd
    unfold ellipseAlpha
    rw [if_neg (by linarith), if_neg (by linarith)]

theorem ellipse_band_alpha_witness :
    (ellipseDistance 2 2 1 1 ≤ 1.0 →
      ellipseMaskData 2 2 ((1 * 2 + 1) * 4 + 1) = 255) ∧
    (1.0 < ellipseDistance 2 2 1 1 → ellipseDistance 2 2 1 1 ≤ 1.3 →
      ellipseMaskData 2 2 ((1 * 2 + 1) * 4 + 1) =
        (⌊(255 : ℝ) * max 0 ((1.3 - ellipseDistance 2 2 1 1) / 0.3)⌋).toNat) ∧
    (1.3 < ellipseDistance 2 2 1 1 →
      ellipseMaskData 2 2 ((1 * 2 + 1) * 4 + 1) = 0) ∧
    ellipseMaskData 2 2 ((1 * 2 + 1) * 4 + 1) =
      ellipseMaskData 2 2 ((1 * 2 + 1) * 4 + 0) :=
  ellipse_band_alpha 2 2 1 1 1 (by decide) (by decide) (by decide)

/-- C4 counterexample: at `(width, height) = (512, 512)` and pixel
`(x, y) = (400, 256)` the normalized distance is `1.125`, inside the
transition band; the source stores `Math.floor(255 * 0.5833...) = 148`,
while the claim's un-floored formula `255 * max 0 ((1.3 - d) / 0.3)`
equals `148.75`, so the emitted alpha is not equal to the claim's
value. -/
theorem ellipse_band_alpha_cex :
    ellipseMaskData 512 512 ((256 * 512 + 400) * 4) = 148 ∧
    ((ellipseMaskData 512 512 ((256 * 512 + 400) * 4) : ℝ) ≠
      255 * max 0 ((1.3 - ellipseDistance 512 512 400 256) / 0.3)) := by
  have hd : ellipseDistance 512 512 400 256 = 9/8 := by
    unfold ellipseDistance
    dsimp only
    rw [show (((400:ℕ) : ℝ) - (512:ℕ)/2) / ((512:ℕ) * 0.25) *
        ((((400:ℕ):ℝ) - (512:ℕ)/2) / ((512:ℕ) * 0.25)) +
        (((256:ℕ):ℝ) - (512:ℕ)/2) / ((512:ℕ) * 0.3) *
        ((((256:ℕ):ℝ) - (512:ℕ)/2) / ((512:ℕ) * 0.3)) = (9/8)^2 by
      push_cast
      norm_num]
    exact Real.sqrt_sq (by norm_num)
  have hmax : max (0:ℝ) ((1.3 - 9/8) / 0.3) = 7/12 := by
    rw [max_eq_right (by norm_num)]
    norm_num
  have hbyte : ellipseMaskData 512 512 ((256 * 512 + 400) * 4) = 148 := by
    have h0 := ellipseMaskData_rgb 512 512 400 256 0 (by norm_num) (by norm_num)
      (by norm_num)
    rw [Nat.add_zero] at h0
    rw [h0, hd]
    unfold ellipseAlpha
    rw [if_neg (by norm_num), if_pos (by norm_num), hmax]
    rw [show (255:ℝ) * (7/12) = 595/4 by norm_num]
    rw [show ⌊(595/4 : ℝ)⌋ = 148 by
      rw [Int.floor_eq_iff]
      norm_num]
    rfl
  refine ⟨hbyte, ?_⟩
  rw [hbyte, hd, hmax]
  norm_num

/-! ### Claim C2 -/

/-- C2: the heuristic classifier marks pixel `(x, y)` background iff
`borderBias + edgeScore + colorScore + centerBias > 0.5`, where
`borderBias = 0.3` when `min(x, y, width-x-1, height-y-1) < 50` else 0,
`edgeScore = 0.4` when the pixel's Sobel gradient is below 25 else 0,
`colorScore` is the background score map value, and `centerBias` is the
distance from the image center divided by the center-to-corner distance,
times 0.2; background pixels are emitted as RGBA `(0,0,0,0)` and subject
pixels as `(255,255,255,255)`. -/
theorem classifier_composite_formula (imageData : ℕ → ℕ) (w h x y c : ℕ)
    (hx : x < w) (hy : y < h) (hc : c < 4) :
    rawMaskData imageData w h ((y * w + x) * 4 + c) =
      if (if min (min (x:ℤ) (y:ℤ)) (min ((w:ℤ) - x - 1) ((h:ℤ) - y - 1)) < 50
            then (0.3:ℝ) else 0)
        + (if edgeMap imageData w h (y * w + x) < 25 then (0.4:ℝ) else 0)
        + detectBackgroundAreas imageData (edgeMap imageData w h) w h
            (analyzeColorClusters imageData w h) (y * w + x)
        + (Real.sqrt (((x:ℝ) - (w:ℝ)/2)^2 + ((y:ℝ) - (h:ℝ)/2)^2)
            / Real.sqrt (((w:ℝ)/2)^2 + ((h:ℝ)/2)^2)) * 0.2 > 0.5
      then 0 else 255 := by
  unfold rawMaskData
  dsimp only
  rw [quad_div _ c hc, pixel_mod w x y hx, pixel_div w x y hx]
  rw [if_pos (pixel_lt w h x y hx hy)]
  unfold isBackgroundPixel
  dsimp only
  simp only [decide_eq_true_eq]

theorem classifier_composite_formula_witness :
    rawMaskData (fun _ => 0) 1 1 ((0 * 1 + 0) * 4 + 0) =
      if (if min (min ((0:ℕ):ℤ) ((0:ℕ):ℤ))
            (min (((1:ℕ):ℤ) - (0:ℕ) - 1) (((1:ℕ):ℤ) - (0:ℕ) - 1)) < 50
            then (0.3:ℝ) else 0)
        + (if edgeMap (fun _ => 0) 1 1 (0 * 1 + 0) < 25 then (0.4:ℝ) else 0)
        + detectBackgroundAreas (fun _ => 0) (edgeMap (fun _ => 0) 1 1) 1 1
            (analyzeColorClusters (fun _ => 0) 1 1) (0 * 1 + 0)
        + (Real.sqrt ((((0:ℕ):ℝ) - ((1:ℕ):ℝ)/2)^2 + (((0:ℕ):ℝ) - ((1:ℕ):ℝ)/2)^2)
            / Real.sqrt ((((1:ℕ):ℝ)/2)^2 + (((1:ℕ):ℝ)/2)^2)) * 0.2 > 0.5
      then 0 else 255 :=
  classifier_composite_formula (fun _ => 0) 1 1 0 0 0 (by decide) (by decide)
    (by decide)

/-! ### Claim C3 -/

theorem foldl_if_add_eq_sum (l : List ColorCluster) (P : ColorCluster → Prop)
    [DecidablePred P] (g : ColorCluster → ℝ) (init : ℝ) :
    l.foldl (fun s d => if P d then s + g d else s) init
      = init + (l.map fun d => if P d then g d else 0).sum := by
  induction l generalizing init with
  | nil => simp
  | cons a t ih =>
    simp only [List.foldl_cons, List.map_cons, List.sum_cons]
    by_cases hP : P a
    · rw [if_pos hP, if_pos hP, ih]
      ring
    · rw [if_neg hP, if_neg hP, ih]
      ring

theorem sum_map_const (n k : ℕ) : ((List.range n).map (fun _ => k)).sum = n * k := by
  induction n with
  | zero => simp
  | succ m ih =>
    rw [List.range_succ]
    simp [ih]
    ring

theorem samplePoints_length (w h : ℕ) :
    (samplePoints w h).length = ((h + 7) / 8) * ((w + 7) / 8) := by
  unfold samplePoints
  rw [List.length_flatMap]
  have hmap : (List.length ∘ fun j =>
      List.map (fun i => ((8 * i, 8 * j) : ℕ × ℕ)) (List.range ((w + 7) / 8)))
      = fun _ => (w + 7) / 8 := by
    funext j
    simp
  rw [hmap, sum_map_const]

/-- C3 (amended): for every pixel below the edge threshold 30, the
background score map value is the sum, over the dominant colors at
Euclidean RGB distance below 60, of `frequency / totalSamples` where
`totalSamples = ⌊width*height/64⌋`; pixels at or above the threshold get
value 0; and when 8 divides both dimensions this `totalSamples` equals
the number of samples taken by the stride-8 sampling. -/
theorem backgroundScoreMap_formula (imageData : ℕ → ℕ) (w h i : ℕ)
    (hi : i < w * h) :
    (edgeMap imageData w h i < 30 →
      detectBackgroundAreas imageData (edgeMap imageData w h) w h
          (analyzeColorClusters imageData w h) i =
        (((analyzeColorClusters imageData w h).dominantColors).map fun dominant =>
          if Real.sqrt (((imageData (i * 3) : ℝ) - dominant.rgb.1)^2 +
              ((imageData (i * 3 + 1) : ℝ) - dominant.rgb.2.1)^2 +
              ((imageData (i * 3 + 2) : ℝ) - dominant.rgb.2.2)^2) < 60 then
            (dominant.frequency : ℝ) / ((w * h / 64 : ℕ) : ℝ)
          else 0).sum) ∧
    (¬ edgeMap imageData w h i < 30 →
      detectBackgroundAreas imageData (edgeMap imageData w h) w h
        (analyzeColorClusters imageData w h) i = 0) ∧
    (8 ∣ w → 8 ∣ h → (w * h / 64 : ℕ) = (samplePoints w h).length) := by
  refine ⟨?_, ?_, ?_⟩
  · intro hedge
    unfold detectBackgroundAreas
    dsimp only
    rw [if_pos ⟨hi, hedge⟩]
    rw [foldl_if_add_eq_sum ((analyzeColorClusters imageData w h).dominantColors)
      (fun dominant => Real.sqrt (((imageData (i * 3) : ℝ) - dominant.rgb.1)^2 +
        ((imageData (i * 3 + 1) : ℝ) - dominant.rgb.2.1)^2 +
        ((imageData (i * 3 + 2) : ℝ) - dominant.rgb.2.2)^2) < 60)
      (fun dominant => (dominant.frequency : ℝ) /
        ((analyzeColorClusters imageData w h).totalSamples : ℝ)) 0]
    rw [zero_add]
    have ht : (analyzeColorClusters imageData w h).totalSamples = w * h / 64 := rfl
    simp only [ht]
  · intro hedge
    unfold detectBackgroundAreas
    dsimp only
    rw [if_neg]
    rintro ⟨-, h30⟩
    exact hedge h30
  · rintro ⟨a, rfl⟩ ⟨b, rfl⟩
    rw [samplePoints_length]
    rw [show 8 * a * (8 * b) = 64 * (a * b) by ring,
      Nat.mul_div_cancel_left _ (by norm_num)]
    rw [show (8 * b + 7) / 8 = b by omega, show (8 * a + 7) / 8 = a by omega]
    ring

theorem backgroundScoreMap_formula_witness :
    (edgeMap (fun _ => 0) 8 8 0 < 30 →
      detectBackgroundAreas (fun _ => 0) (edgeMap (fun _ => 0) 8 8) 8 8
          (analyzeColorClusters (fun _ => 0) 8 8) 0 =
        (((analyzeColorClusters (fun _ => 0) 8 8).dominantColors).map fun dominant =>
          if Real.sqrt ((((fun _ => 0 : ℕ → ℕ) (0 * 3) : ℝ) - dominant.rgb.1)^2 +
              (((fun _ => 0 : ℕ → ℕ) (0 * 3 + 1) : ℝ) - dominant.rgb.2.1)^2 +
              (((fun _ => 0 : ℕ → ℕ) (0 * 3 + 2) : ℝ) - dominant.rgb.2.2)^2) < 60 then
            (dominant.frequency : ℝ) / ((8 * 8 / 64 : ℕ) : ℝ)
          else 0).sum) ∧
    (¬ edgeMap (fun _ => 0) 8 8 0 < 30 →
      detectBackgroundAreas (fun _ => 0) (edgeMap (fun _ => 0) 8 8) 8 8
        (analyzeColorClusters (fun _ => 0) 8 8) 0 = 0) ∧
    (8 ∣ 8 → 8 ∣ 8 → (8 * 8 / 64 : ℕ) = (samplePoints 8 8).length) :=
  backgroundScoreMap_formula (fun _ => 0) 8 8 0 (by decide)

/-- C3 counterexample: on a uniform black 9-by-9 image the single
dominant color is `(0,0,0)` with frequency 4 (four stride-8 samples), but
the code's `totalSamples = ⌊81/64⌋ = 1`, so the background score map
value at pixel 0 is `4/1 = 4`, while the claim's wording (divide by the
number of samples taken, i.e. 4) gives `4/4 = 1`. -/
theorem backgroundScoreMap_formula_cex :
    detectBackgroundAreas (fun _ => 0) (edgeMap (fun _ => 0) 9 9) 9 9
        (analyzeColorClusters (fun _ => 0) 9 9) 0 = 4 ∧
    claimBackgroundScoreMap (fun _ => 0) 9 9 0 = 1 ∧
    detectBackgroundAreas (fun _ => 0) (edgeMap (fun _ => 0) 9 9) 9 9
        (analyzeColorClusters (fun _ => 0) 9 9) 0 ≠
      claimBackgroundScoreMap (fun _ => 0) 9 9 0 := by
  have hcc : analyzeColorClusters (fun _ => 0) 9 9 =
      { dominantColors := [{ rgb := (0, 0, 0), frequency := 4 }]
        totalSamples := 1 } := by rfl
  have hedge : edgeMap (fun _ => 0) 9 9 0 = 0 := by
    unfold edgeMap
    dsimp only
    rw [if_neg (by omega)]
  have hlhs : detectBackgroundAreas (fun _ => 0) (edgeMap (fun _ => 0) 9 9) 9 9
      (analyzeColorClusters (fun _ => 0) 9 9) 0 = 4 := by
    unfold detectBackgroundAreas
    dsimp only
    rw [hcc, hedge, if_pos (by norm_num)]
    simp only [List.foldl_cons, List.foldl_nil]
    rw [if_pos (by norm_num [Real.sqrt_zero])]
    norm_num
  have hrhs : claimBackgroundScoreMap (fun _ => 0) 9 9 0 = 1 := by
    unfold claimBackgroundScoreMap
    rw [hcc, hedge, if_pos (by norm_num)]
    simp only [List.map_cons, List.map_nil, List.sum_cons, List.sum_nil]
    rw [if_pos (by norm_num [Real.sqrt_zero])]
    rw [show (samplePoints 9 9).length = 4 from rfl]
    norm_num
  exact ⟨hlhs, hrhs, by rw [hlhs, hrhs]; norm_num⟩

/-! ### Claim C9 -/

/-- C9: the mask-synthesis pipeline is total: for every input raster it
returns the cleaned mask with every byte of the width-by-height RGBA
raster binary (0 or 255), and the degeneracy diagnostics (zero editable
pixels, zero protected pixels) never alter the returned mask: the mask
component always equals the core pipeline output, warnings included. -/
theorem mask_synthesis_total (imageData : ℕ → ℕ) (w h : ℕ) :
    ((createBackgroundMaskChecked imageData w h).1 =
      createBackgroundMaskCore imageData w h) ∧
    (∀ j, j < 4 * (w * h) →
      (createBackgroundMaskChecked imageData w h).1 j = 0 ∨
      (createBackgroundMaskChecked imageData w h).1 j = 255) ∧
    (editablePixels imageData w h = 0 ∨ protectedPixels imageData w h = 0 →
      (createBackgroundMaskChecked imageData w h).1 =
        createBackgroundMaskCore imageData w h) := by
  refine ⟨rfl, ?_, fun _ => rfl⟩
  intro j hj
  have hmir : mirrorBinaryAt (createBackgroundMaskCore imageData w h) (j / 4) := by
    unfold createBackgroundMaskCore cleanMaskArtifacts
    exact smooth_mirror _ w h _ (binarize_mirror _ w h _)
  have hj4 : j / 4 * 4 + j % 4 = j := by omega
  rcases hmir with h0 | h255
  · left
    have := h0 (j % 4) (by omega)
    rwa [hj4] at this
  · right
    have := h255 (j % 4) (by omega)
    rwa [hj4] at this

theorem mask_synthesis_total_witness :
    ((createBackgroundMaskChecked (fun _ => 0) 1 1).1 =
      createBackgroundMaskCore (fun _ => 0) 1 1) ∧
    ((createBackgroundMaskChecked (fun _ => 0) 1 1).1 0 = 0 ∨
      (createBackgroundMaskChecked (fun _ => 0) 1 1).1 0 = 255) :=
  ⟨(mask_synthesis_total (fun _ => 0) 1 1).1,
   (mask_synthesis_total (fun _ => 0) 1 1).2.1 0 (by decide)⟩

end CVMask
